import Mathlib

/-!
Verification of the `implem` crate: a declarative macro expanding capability
requests (Display, Debug, From, Into, Deref, DerefMut, Index, IndexMut) into
trait implementations.  We embed the expansion at the level of parsed
capability requests: each arm of the `internal!` macro becomes a case of the
`internal` function below, and each emitted `impl` block becomes a value of
the `Emitted` type.  Token fragments (types, patterns, expression bodies) are
kept abstract as strings, since the macro only transports them.
-/

/-- The generic context threaded through `internal!`: the optional generic
type parameters, the optional where-clauses (both flattened to a possibly
empty token list, as the macro does with `$( $($t_params)* )?`), and the
self type of the enclosing `for` block. -/
structure GenCtx where
  t_params : List String
  where_clauses : List String
  self_ty : String
deriving DecidableEq, Repr

/-- A parsed capability request, one constructor per pattern that the arms of
`internal!` recognize.  `deref` and `index` carry the optional bundled
mutable body exactly as the `$( , |&mut $slf_mut| $def_mut )?` fragment does;
`unknown` is the catch-all `$unk:ident` arm's view of a request whose
capability name is outside the recognized set. -/
inductive Request where
  | display (slf fmt body : String)
  | debug (slf fmt body : String)
  | fromReq (src_ty src body : String)
  | intoReq (tgt_ty slf body : String)
  | deref (tgt_ty slf body : String) (mutPart : Option (String × String))
  | derefMut (slf body : String)
  | index (idx_ty out_ty slf idx body : String)
      (mutPart : Option (String × String × String))
  | indexMut (idx_ty slf idx body : String)
  | unknown (name : String)
deriving DecidableEq, Repr

/-- An emitted item: one trait implementation block, or the
`compile_error!` diagnostic. -/
inductive Emitted where
  | implDisplay (ctx : GenCtx) (slf fmt body : String)
  | implDebug (ctx : GenCtx) (slf fmt body : String)
  | implFrom (ctx : GenCtx) (src_ty src body : String)
  | implInto (ctx : GenCtx) (tgt_ty slf body : String)
  | implDeref (ctx : GenCtx) (tgt_ty slf body : String)
  | implDerefMut (ctx : GenCtx) (slf body : String)
  | implIndex (ctx : GenCtx) (idx_ty out_ty slf idx body : String)
  | implIndexMut (ctx : GenCtx) (idx_ty slf idx body : String)
  | compileError (msg : String)
deriving DecidableEq, Repr

/-- The message built by the error arm:
`compile_error!(concat!("expected known trait, got BT", stringify!($unk), "BT"))`
with BT a backtick. -/
def errorMsg (unk : String) : String :=
  "expected known trait, got `" ++ unk ++ "`"

/-- Size measure for the expansion: the `Deref`/`Index` arms with a bundled
mutable body re-invoke `internal!` with a `DerefMut`/`IndexMut` request
prepended, so they weigh 2. -/
def Request.size : Request → Nat
  | .deref _ _ _ (some _) => 2
  | .index _ _ _ _ _ (some _) => 2
  | _ => 1

/-- Total size of a request list. -/
def reqsSize : List Request → Nat
  | [] => 0
  | r :: t => r.size + reqsSize t

/-- The `internal!` macro: dispatch on the head capability request, emit the
corresponding trait implementation, recurse on the tail.  The `deref` and
`index` arms with a bundled mutable body recurse with a synthesized
`DerefMut` / `IndexMut<idx_ty>` request prepended, exactly as the source
re-invokes `$crate::internal!` with `DerefMut { |&mut $slf_mut| $def_mut }`.
The catch-all arm emits `compile_error!` and does not recurse. -/
def internal (ctx : GenCtx) : List Request → List Emitted
  | [] => []
  | .display slf fmt body :: tail =>
      .implDisplay ctx slf fmt body :: internal ctx tail
  | .debug slf fmt body :: tail =>
      .implDebug ctx slf fmt body :: internal ctx tail
  | .fromReq src_ty src body :: tail =>
      .implFrom ctx src_ty src body :: internal ctx tail
  | .intoReq tgt_ty slf body :: tail =>
      .implInto ctx tgt_ty slf body :: internal ctx tail
  | .deref tgt_ty slf body none :: tail =>
      .implDeref ctx tgt_ty slf body :: internal ctx tail
  | .deref tgt_ty slf body (some (slf_mut, body_mut)) :: tail =>
      .implDeref ctx tgt_ty slf body ::
        internal ctx (.derefMut slf_mut body_mut :: tail)
  | .derefMut slf body :: tail =>
      .implDerefMut ctx slf body :: internal ctx tail
  | .index idx_ty out_ty slf idx body none :: tail =>
      .implIndex ctx idx_ty out_ty slf idx body :: internal ctx tail
  | .index idx_ty out_ty slf idx body (some (slf_mut, idx_mut, body_mut)) :: tail =>
      .implIndex ctx idx_ty out_ty slf idx body ::
        internal ctx (.indexMut idx_ty slf_mut idx_mut body_mut :: tail)
  | .indexMut idx_ty slf idx body :: tail =>
      .implIndexMut ctx idx_ty slf idx body :: internal ctx tail
  | .unknown name :: _ => [.compileError (errorMsg name)]
termination_by reqs => reqsSize reqs
decreasing_by all_goals simp [reqsSize, Request.size]

/-- One `for` block of an `implem!` invocation: the optional generic
parameters and where-clauses (empty list when absent), the self type, and
the request sequence between the braces. -/
structure Block where
  t_params : List String
  where_clauses : List String
  self_ty : String
  stuff : List Request
deriving DecidableEq, Repr

/-- The context `internal!` is invoked with for a block. -/
def Block.ctx (b : Block) : GenCtx :=
  ⟨b.t_params, b.where_clauses, b.self_ty⟩

/-- The `implem!` macro: expand the head block through `internal!`, then
recurse on the remaining blocks (`$crate::implem! { $($tail)* }`); the empty
invocation expands to nothing. -/
def implem : List Block → List Emitted
  | [] => []
  | b :: tail => internal b.ctx b.stuff ++ implem tail

/-- The implementations a single recognized request gives rise to, in
emission order; an unrecognized name gives rise to the diagnostic. -/
def emitOf (ctx : GenCtx) : Request → List Emitted
  | .display slf fmt body => [.implDisplay ctx slf fmt body]
  | .debug slf fmt body => [.implDebug ctx slf fmt body]
  | .fromReq src_ty src body => [.implFrom ctx src_ty src body]
  | .intoReq tgt_ty slf body => [.implInto ctx tgt_ty slf body]
  | .deref tgt_ty slf body none => [.implDeref ctx tgt_ty slf body]
  | .deref tgt_ty slf body (some (slf_mut, body_mut)) =>
      [.implDeref ctx tgt_ty slf body, .implDerefMut ctx slf_mut body_mut]
  | .derefMut slf body => [.implDerefMut ctx slf body]
  | .index idx_ty out_ty slf idx body none =>
      [.implIndex ctx idx_ty out_ty slf idx body]
  | .index idx_ty out_ty slf idx body (some (slf_mut, idx_mut, body_mut)) =>
      [.implIndex ctx idx_ty out_ty slf idx body,
       .implIndexMut ctx idx_ty slf_mut idx_mut body_mut]
  | .indexMut idx_ty slf idx body => [.implIndexMut ctx idx_ty slf idx body]
  | .unknown name => [.compileError (errorMsg name)]

/-- Whether a request falls into the catch-all arm of `internal!`. -/
def Request.isUnknown : Request → Bool
  | .unknown _ => true
  | _ => false

/-- Whether an emitted item is the `compile_error!` diagnostic. -/
def Emitted.isError : Emitted → Bool
  | .compileError _ => true
  | _ => false

/-- The generic context an emitted implementation carries (none for the
diagnostic). -/
def Emitted.ctxOf : Emitted → Option GenCtx
  | .implDisplay ctx _ _ _ => some ctx
  | .implDebug ctx _ _ _ => some ctx
  | .implFrom ctx _ _ _ => some ctx
  | .implInto ctx _ _ _ => some ctx
  | .implDeref ctx _ _ _ => some ctx
  | .implDerefMut ctx _ _ => some ctx
  | .implIndex ctx _ _ _ _ _ => some ctx
  | .implIndexMut ctx _ _ _ _ => some ctx
  | .compileError _ => none

/-- Structural restatement of `internal`: emit `emitOf` for each request
until the first unrecognized name, whose diagnostic ends the block. -/
def expandBlock (ctx : GenCtx) : List Request → List Emitted
  | [] => []
  | .unknown name :: _ => [.compileError (errorMsg name)]
  | r :: tail => emitOf ctx r ++ expandBlock ctx tail

theorem expandBlock_cons_of_not_unknown (ctx : GenCtx) (r : Request)
    (tail : List Request) (h : r.isUnknown = false) :
    expandBlock ctx (r :: tail) = emitOf ctx r ++ expandBlock ctx tail := by
  cases r <;> simp_all [Request.isUnknown, expandBlock]

theorem internal_eq_expandBlock (ctx : GenCtx) (reqs : List Request) :
    internal ctx reqs = expandBlock ctx reqs := by
  induction reqs using internal.induct ctx <;>
    simp_all [internal, expandBlock, emitOf]

theorem emitOf_no_error (ctx : GenCtx) (r : Request)
    (h : r.isUnknown = false) :
    (emitOf ctx r).any Emitted.isError = false := by
  cases r <;> simp_all [Request.isUnknown, emitOf, Emitted.isError]
  case deref m => cases m <;> simp [emitOf, Emitted.isError]
  case index m => cases m <;> simp [emitOf, Emitted.isError]

theorem expandBlock_append_ok (ctx : GenCtx) (pre rest : List Request)
    (h : pre.all (fun r => !r.isUnknown) = true) :
    expandBlock ctx (pre ++ rest) =
      pre.flatMap (emitOf ctx) ++ expandBlock ctx rest := by
  induction pre with
  | nil => simp
  | cons r t ih =>
      simp only [List.all_cons, Bool.and_eq_true, Bool.not_eq_true'] at h
      simp only [List.cons_append, List.flatMap_cons,
        expandBlock_cons_of_not_unknown ctx r _ h.1, ih h.2, List.append_assoc]

theorem expandBlock_ok (ctx : GenCtx) (reqs : List Request)
    (h : reqs.all (fun r => !r.isUnknown) = true) :
    expandBlock ctx reqs = reqs.flatMap (emitOf ctx) := by
  have := expandBlock_append_ok ctx reqs [] h
  simpa [expandBlock] using this

theorem expandBlock_any_error (ctx : GenCtx) (reqs : List Request) :
    (expandBlock ctx reqs).any Emitted.isError = reqs.any Request.isUnknown := by
  induction reqs with
  | nil => simp [expandBlock]
  | cons r t ih =>
      by_cases h : r.isUnknown = true
      · cases r <;> simp_all [Request.isUnknown, expandBlock, Emitted.isError]
      · rw [Bool.not_eq_true] at h
        simp [expandBlock_cons_of_not_unknown ctx r t h, List.any_append,
          emitOf_no_error ctx r h, ih, h]

/-!
Semantic model of the examples: the sample type `MyStruct` wrapping a
string, the caller-supplied bodies from `examples/display_from_into.rs`,
and a model of Rust format strings (`\x7b\x7b` and `\x7d\x7d` are escaped
braces, `\x7b\x7d` consumes the next argument) so that `write!` and
`to_string` can be evaluated.
-/

/-- Left brace, written by its code point to keep it out of the source
text of string literals below. -/
def lbrace : Char := Char.ofNat 123

/-- Right brace. -/
def rbrace : Char := Char.ofNat 125

/-- Render a Rust format string against positional display arguments. -/
def formatRender : List Char → List String → List Char
  | [], _ => []
  | [c], _ => [c]
  | c1 :: c2 :: rest, args =>
    if c1 = lbrace ∧ c2 = lbrace then lbrace :: formatRender rest args
    else if c1 = rbrace ∧ c2 = rbrace then rbrace :: formatRender rest args
    else if c1 = lbrace ∧ c2 = rbrace then
      match args with
      | [] => formatRender rest []
      | a :: more => a.data ++ formatRender rest more
    else c1 :: formatRender (c2 :: rest) args

/-- `format!`-style rendering on strings. -/
def rustFormat (fmtStr : String) (args : List String) : String :=
  ⟨formatRender fmtStr.data args⟩

/-- `write!(fmt, ...)`: append the rendered text to the formatter's
buffer (the buffer models `std::fmt::Formatter`; the `std::fmt::Result`
is always `Ok` here and is dropped). -/
def rustWrite (buf : String) (fmtStr : String) (args : List String) : String :=
  buf ++ rustFormat fmtStr args

/-- The sample type from `examples/display_from_into.rs`:
`pub struct MyStruct { s: String }`. -/
structure MyStruct where
  s : String
deriving DecidableEq, Repr

/-- The caller-supplied `Display` body
`|&self, fmt| write!(fmt, "\x7b\x7b s: `\x7b\x7d` \x7d\x7d", self.s)`:
the generated `fmt` method evaluates exactly this body. -/
def MyStruct.fmtBody (self : MyStruct) (fmt : String) : String :=
  rustWrite fmt "\x7b\x7b s: `\x7b\x7d` \x7d\x7d" [self.s]

/-- Rust's `ToString` blanket implementation over `Display`: format the
value into an empty buffer. -/
def MyStruct.to_string (self : MyStruct) : String :=
  self.fmtBody ""

/-- The caller-supplied `From<String>` body `|s| Self { s }`: the
generated `from` constructor evaluates exactly this body. -/
def MyStruct.fromString (s : String) : MyStruct :=
  { s := s }

/-- The caller-supplied `Into<&'a str>` body for `&'a MyStruct`,
`|self| &self.s`: the generated `into` method evaluates exactly this body
(references are modelled by values). -/
def MyStructRef.intoStr (self : MyStruct) : String :=
  self.s

example : MyStruct.to_string { s := "cat" } = "\x7b s: `cat` \x7d" := by rfl

theorem emitOf_ctxOf (ctx : GenCtx) (r : Request) :
    ∀ e ∈ emitOf ctx r, e.isError = false → e.ctxOf = some ctx := by
  intro e he herr
  cases r with
  | display a b c => simp_all [emitOf, Emitted.ctxOf]
  | debug a b c => simp_all [emitOf, Emitted.ctxOf]
  | fromReq a b c => simp_all [emitOf, Emitted.ctxOf]
  | intoReq a b c => simp_all [emitOf, Emitted.ctxOf]
  | deref a b c m =>
      rcases m with _ | ⟨x, y⟩ <;> simp only [emitOf, List.mem_cons,
        List.mem_singleton, List.not_mem_nil, or_false] at he <;>
        [skip; rcases he with rfl | rfl] <;> simp_all [Emitted.ctxOf]
  | derefMut a b => simp_all [emitOf, Emitted.ctxOf]
  | index a b c d f m =>
      rcases m with _ | ⟨x, y, z⟩ <;> simp only [emitOf, List.mem_cons,
        List.mem_singleton, List.not_mem_nil, or_false] at he <;>
        [skip; rcases he with rfl | rfl] <;> simp_all [Emitted.ctxOf]
  | indexMut a b c d => simp_all [emitOf, Emitted.ctxOf]
  | unknown n => simp_all [emitOf, Emitted.isError]

/-- Claim C1: the expansion emits its `compile_error!` diagnostic exactly
when a capability request names an unrecognized capability (the catch-all
arm, reached by any name outside Display, Debug, From, Into, Deref,
DerefMut, Index, IndexMut), and the diagnostic text contains the offending
name. -/
theorem error_iff_unrecognized_name :
    (∀ (ctx : GenCtx) (reqs : List Request),
      (internal ctx reqs).any Emitted.isError = reqs.any Request.isUnknown)
    ∧ (∀ (ctx : GenCtx) (name : String) (tail : List Request),
      internal ctx (Request.unknown name :: tail) =
        [Emitted.compileError (errorMsg name)])
    ∧ (∀ name : String, ∃ a b : String, errorMsg name = a ++ name ++ b) := by
  refine ⟨?_, ?_, ?_⟩
  · intro ctx reqs
    rw [internal_eq_expandBlock]
    exact expandBlock_any_error ctx reqs
  · intro ctx name tail
    simp [internal]
  · intro name
    exact ⟨"expected known trait, got `", "`", rfl⟩

/-- Claim C2: a Display request expands to a Display implementation whose
`fmt` method carries exactly the caller-supplied body; evaluating the
sample body from the example on a value wrapping "cat" renders the exact
configured text. -/
theorem display_request_expansion :
    (∀ (ctx : GenCtx) (slf fmt body : String) (tail : List Request),
      internal ctx (Request.display slf fmt body :: tail) =
        Emitted.implDisplay ctx slf fmt body :: internal ctx tail)
    ∧ MyStruct.to_string { s := "cat" } = "\x7b s: `cat` \x7d" := by
  constructor
  · intro ctx slf fmt body tail
    simp [internal]
  · rfl

/-- Claim C3: a `From<Src>` request expands to a `from` constructor
carrying exactly the caller-supplied body; the sample body
`|s| Self \x7b s \x7d` applied to "cat" yields a value whose wrapped field
is "cat". -/
theorem from_request_expansion :
    (∀ (ctx : GenCtx) (src_ty src body : String) (tail : List Request),
      internal ctx (Request.fromReq src_ty src body :: tail) =
        Emitted.implFrom ctx src_ty src body :: internal ctx tail)
    ∧ (MyStruct.fromString "cat").s = "cat" := by
  constructor
  · intro ctx src_ty src body tail
    simp [internal]
  · rfl

/-- Claim C4: an `Into<Tgt>` request expands to an `into` method carrying
exactly the caller-supplied body; the sample body `|self| &self.s` on a
value wrapping "dog" yields "dog". -/
theorem into_request_expansion :
    (∀ (ctx : GenCtx) (tgt_ty slf body : String) (tail : List Request),
      internal ctx (Request.intoReq tgt_ty slf body :: tail) =
        Emitted.implInto ctx tgt_ty slf body :: internal ctx tail)
    ∧ MyStructRef.intoStr { s := "dog" } = "dog" := by
  constructor
  · intro ctx tgt_ty slf body tail
    simp [internal]
  · rfl

/-- Claim C5: a Deref request bundled with a mutable body expands to both
the Deref and the DerefMut implementations, and is equivalent to the Deref
request followed by a standalone DerefMut request with the same body. -/
theorem deref_bundled_equiv :
    ∀ (ctx : GenCtx) (tgt_ty slf body slf_mut body_mut : String)
      (tail : List Request),
      internal ctx
          (Request.deref tgt_ty slf body (some (slf_mut, body_mut)) :: tail) =
        Emitted.implDeref ctx tgt_ty slf body ::
          Emitted.implDerefMut ctx slf_mut body_mut :: internal ctx tail
      ∧ internal ctx
            (Request.deref tgt_ty slf body (some (slf_mut, body_mut)) :: tail) =
          internal ctx (Request.deref tgt_ty slf body none ::
            Request.derefMut slf_mut body_mut :: tail) := by
  intro ctx tgt_ty slf body slf_mut body_mut tail
  constructor <;> simp [internal]

/-- Claim C6: an `Index<Idx, Output = Out>` request expands to an Index
implementation carrying the supplied body; a bundled mutable body
additionally produces the IndexMut implementation; a standalone
`IndexMut<Idx>` request produces the IndexMut implementation alone. -/
theorem index_request_expansion :
    (∀ (ctx : GenCtx) (idx_ty out_ty slf idx body : String)
        (tail : List Request),
      internal ctx (Request.index idx_ty out_ty slf idx body none :: tail) =
        Emitted.implIndex ctx idx_ty out_ty slf idx body :: internal ctx tail)
    ∧ (∀ (ctx : GenCtx) (idx_ty out_ty slf idx body slf_mut idx_mut body_mut :
          String) (tail : List Request),
      internal ctx (Request.index idx_ty out_ty slf idx body
          (some (slf_mut, idx_mut, body_mut)) :: tail) =
        Emitted.implIndex ctx idx_ty out_ty slf idx body ::
          Emitted.implIndexMut ctx idx_ty slf_mut idx_mut body_mut ::
            internal ctx tail)
    ∧ (∀ (ctx : GenCtx) (idx_ty slf idx body : String) (tail : List Request),
      internal ctx (Request.indexMut idx_ty slf idx body :: tail) =
        Emitted.implIndexMut ctx idx_ty slf idx body :: internal ctx tail) := by
  refine ⟨?_, ?_, ?_⟩ <;> intros <;> simp [internal]

/-- Claim C7: expansion is a deterministic function of the input, blocks
are processed left to right, and within a block free of unrecognized names
the emitted implementations are the requests' implementations in input
order. -/
theorem expansion_deterministic_ordered :
    (∀ input1 input2 : List Block,
      input1 = input2 → implem input1 = implem input2)
    ∧ (∀ bs : List Block,
      implem bs = bs.flatMap (fun b => internal b.ctx b.stuff))
    ∧ (∀ (ctx : GenCtx) (reqs : List Request),
      reqs.all (fun r => !r.isUnknown) = true →
        internal ctx reqs = reqs.flatMap (emitOf ctx)) := by
  refine ⟨?_, ?_, ?_⟩
  · intro input1 input2 h
    exact congrArg implem h
  · intro bs
    induction bs with
    | nil => simp [implem]
    | cons b t ih => simp [implem, ih]
  · intro ctx reqs h
    rw [internal_eq_expandBlock]
    exact expandBlock_ok ctx reqs h

/-- Witness for C7 at concrete inputs. -/
theorem expansion_deterministic_ordered_witness :
    implem [] = implem []
    ∧ internal ⟨[], [], "MyStruct"⟩ [Request.display "self" "fmt" "b"] =
        [Request.display "self" "fmt" "b"].flatMap
          (emitOf ⟨[], [], "MyStruct"⟩) :=
  ⟨expansion_deterministic_ordered.1 [] [] rfl,
   expansion_deterministic_ordered.2.2 ⟨[], [], "MyStruct"⟩
     [Request.display "self" "fmt" "b"] rfl⟩

/-- Claim C8: every implementation emitted for a block carries the block's
generic parameters and where-clauses unchanged: any non-error item of the
expansion carries exactly the invoking context. -/
theorem block_generics_invariant :
    ∀ (ctx : GenCtx) (reqs : List Request) (e : Emitted),
      e ∈ internal ctx reqs → e.isError = false → e.ctxOf = some ctx := by
  intro ctx reqs e he herr
  rw [internal_eq_expandBlock] at he
  induction reqs with
  | nil => simp [expandBlock] at he
  | cons r t ih =>
      by_cases hu : r.isUnknown = true
      · cases r <;> simp_all [Request.isUnknown, expandBlock, Emitted.isError]
      · rw [Bool.not_eq_true] at hu
        rw [expandBlock_cons_of_not_unknown ctx r t hu] at he
        rcases List.mem_append.mp he with h | h
        · exact emitOf_ctxOf ctx r e h herr
        · exact ih h

/-- Witness for C8 at a concrete block. -/
theorem block_generics_invariant_witness :
    Emitted.ctxOf
        (Emitted.implDisplay ⟨["T"], [], "MyStruct"⟩ "self" "fmt" "b") =
      some ⟨["T"], [], "MyStruct"⟩ :=
  block_generics_invariant ⟨["T"], [], "MyStruct"⟩
    [Request.display "self" "fmt" "b"] _ (by simp [internal]) rfl

/-- Claim C9: upon an unrecognized name, the requests expanded before it
keep their implementations, only the diagnostic is emitted for it, every
request after it in the same block is discarded, and the following blocks
of the invocation still expand normally. -/
theorem unknown_discards_rest_of_block :
    (∀ (ctx : GenCtx) (pre : List Request) (name : String)
        (post : List Request),
      pre.all (fun r => !r.isUnknown) = true →
        internal ctx (pre ++ Request.unknown name :: post) =
          pre.flatMap (emitOf ctx) ++ [Emitted.compileError (errorMsg name)])
    ∧ (∀ (b : Block) (bs : List Block),
      implem (b :: bs) = internal b.ctx b.stuff ++ implem bs) := by
  constructor
  · intro ctx pre name post h
    rw [internal_eq_expandBlock, expandBlock_append_ok ctx pre _ h]
    simp [expandBlock]
  · intro b bs
    simp [implem]

/-- Witness for C9: one request before the unknown name, one after it, and
a following block. -/
theorem unknown_discards_rest_of_block_witness :
    internal ⟨[], [], "T"⟩
        ([Request.display "self" "fmt" "b1"] ++
          Request.unknown "Clone" :: [Request.debug "self" "fmt" "b2"]) =
      [Request.display "self" "fmt" "b1"].flatMap (emitOf ⟨[], [], "T"⟩) ++
        [Emitted.compileError (errorMsg "Clone")]
    ∧ implem (⟨[], [], "T", [Request.unknown "Clone"]⟩ ::
          [⟨[], [], "U", [Request.display "self" "fmt" "b3"]⟩]) =
        internal ⟨[], [], "T"⟩ [Request.unknown "Clone"] ++
          implem [⟨[], [], "U", [Request.display "self" "fmt" "b3"]⟩] :=
  ⟨unknown_discards_rest_of_block.1 ⟨[], [], "T"⟩
      [Request.display "self" "fmt" "b1"] "Clone"
      [Request.debug "self" "fmt" "b2"] rfl,
   unknown_discards_rest_of_block.2 ⟨[], [], "T", [Request.unknown "Clone"]⟩
      [⟨[], [], "U", [Request.display "self" "fmt" "b3"]⟩]⟩

/-- Claim C10: the empty invocation expands to nothing, a block with zero
capability requests emits no code, and an invocation consisting of such a
block emits no code. -/
theorem empty_input_expands_to_nothing :
    implem [] = []
    ∧ (∀ ctx : GenCtx, internal ctx [] = [])
    ∧ (∀ tp wc : List String, ∀ ty : String,
        implem [⟨tp, wc, ty, []⟩] = []) := by
  refine ⟨rfl, ?_, ?_⟩
  · intro ctx
    simp [internal]
  · intro tp wc ty
    simp [implem, internal]
